import Mathlib

/-!
Verification of the buffer utilities and loader logic of the `aegis-python`
repository (files `pyaegis/util.py`, `pyaegis/_loader.py`, `aegis/_loader.py`).

Byte buffers are modelled as `List Nat` with every entry below 256; the Python
functions that mutate a buffer in place are modelled as functions returning the
new buffer contents.  Python's arbitrary-precision `int` is modelled as `Int`,
and Python's bitwise `&` on it as `Int.land`, which has the same two's
complement semantics.
-/

namespace PyAegis

/-- The little-endian unsigned integer value of a byte list (index 0 is the
least significant byte). -/
def le_value : List Nat → Nat
  | [] => 0
  | b :: rest => b + 256 * le_value rest

/-- Embedding of `pyaegis.util.nonce_increment`: walk the buffer from index 0;
at the first byte below 255 add one and stop, setting every earlier byte
(which was 255) to 0. -/
def nonce_increment : List Nat → List Nat
  | [] => []
  | b :: rest => if b < 255 then (b + 1) :: rest else 0 :: nonce_increment rest

/-- Embedding of `pyaegis.util.wipe`: set every byte of the buffer to 0. -/
def wipe : List Nat → List Nat
  | [] => []
  | _ :: rest => 0 :: wipe rest

theorem le_value_lt (b : List Nat) (h : ∀ x ∈ b, x < 256) :
    le_value b < 256 ^ b.length := by
  induction b with
  | nil => simp [le_value]
  | cons x rest ih =>
    have hx : x < 256 := h x (by simp)
    have hr : le_value rest < 256 ^ rest.length := ih fun y hy => h y (by simp [hy])
    have hmul : 256 * (le_value rest + 1) ≤ 256 * 256 ^ rest.length :=
      Nat.mul_le_mul_left 256 hr
    simp only [le_value, List.length_cons, pow_succ]
    omega

theorem nonce_increment_length (b : List Nat) :
    (nonce_increment b).length = b.length := by
  induction b with
  | nil => rfl
  | cons x rest ih =>
    by_cases hx : x < 255 <;> simp [nonce_increment, hx, ih]

theorem wipe_length (b : List Nat) : (wipe b).length = b.length := by
  induction b with
  | nil => rfl
  | cons x rest ih => simp [wipe, ih]

theorem wipe_mem_zero (b : List Nat) : ∀ x ∈ wipe b, x = 0 := by
  induction b with
  | nil => simp [wipe]
  | cons x rest ih =>
    intro y hy
    rcases (by simpa [wipe] using hy : y = 0 ∨ y ∈ wipe rest) with h | h
    · exact h
    · exact ih y h

theorem wipe_wipe (b : List Nat) : wipe (wipe b) = wipe b := by
  induction b with
  | nil => rfl
  | cons x rest ih => simp [wipe, ih]

theorem nonce_increment_le_value (b : List Nat) (h : ∀ x ∈ b, x < 256) :
    le_value (nonce_increment b) = (le_value b + 1) % 256 ^ b.length := by
  induction b with
  | nil => simp [nonce_increment, le_value]
  | cons x rest ih =>
    have hx : x < 256 := h x (by simp)
    have hrest : ∀ y ∈ rest, y < 256 := fun y hy => h y (by simp [hy])
    by_cases hlt : x < 255
    · have hr : le_value rest < 256 ^ rest.length := le_value_lt rest hrest
      have hmul : 256 * (le_value rest + 1) ≤ 256 * 256 ^ rest.length :=
        Nat.mul_le_mul_left 256 hr
      have hbig : x + 256 * le_value rest + 1 < 256 ^ (x :: rest).length := by
        simp only [List.length_cons, pow_succ]
        omega
      simp only [nonce_increment, hlt, if_pos, le_value]
      rw [Nat.mod_eq_of_lt hbig]
      omega
    · have hx255 : x = 255 := by omega
      subst hx255
      simp only [nonce_increment, hlt, if_neg, le_value, not_false_iff]
      rw [ih hrest]
      have hrw : 255 + 256 * le_value rest + 1 = 256 * (le_value rest + 1) := by ring
      have hpow : (256 : Nat) ^ ((255 :: rest : List Nat).length) =
          256 * 256 ^ rest.length := by
        simp [List.length_cons, pow_succ]
        ring
      rw [hrw, hpow, Nat.mul_mod_mul_left]
      omega

end PyAegis

namespace PyAegis

/-- C1: for every byte buffer, `nonce_increment` turns the little-endian value
v of the buffer into (v + 1) mod 256^n, where n is the buffer length; in
particular the two-byte buffer 0xFF 0xFF wraps to 0x00 0x00 and 0x01 0x00
becomes 0x02 0x00. -/
theorem C1_nonce_increment_add_one_mod (b : List Nat) (h : ∀ x ∈ b, x < 256) :
    le_value (nonce_increment b) = (le_value b + 1) % 256 ^ b.length
    ∧ (nonce_increment b).length = b.length
    ∧ nonce_increment [255, 255] = [0, 0]
    ∧ nonce_increment [1, 0] = [2, 0] :=
  ⟨nonce_increment_le_value b h, nonce_increment_length b, by decide, by decide⟩

/-- Witness for C1 at the concrete buffer 0xFF 0xFF. -/
theorem C1_witness :
    le_value (nonce_increment [255, 255]) =
      (le_value [255, 255] + 1) % 256 ^ ([255, 255] : List Nat).length :=
  (C1_nonce_increment_add_one_mod [255, 255] (by decide)).1

/-- C2: after `wipe`, every byte of the buffer is 0 (for buffers of any
length, including 0), the length is unchanged, and `wipe` is idempotent. -/
theorem C2_wipe_zero_idempotent (b : List Nat) :
    (∀ x ∈ wipe b, x = 0) ∧ wipe (wipe b) = wipe b ∧ (wipe b).length = b.length :=
  ⟨wipe_mem_zero b, wipe_wipe b, wipe_length b⟩

/-- C9: `nonce_increment` changes only the bytes up to and including the first
byte that is below 255: if the buffer is xs ++ x :: ys with every byte of xs
equal to 255 and x < 255, the xs part becomes zeros, x becomes x + 1, and the
suffix ys is returned unchanged. -/
theorem C9_nonce_increment_frame (xs ys : List Nat) (x : Nat)
    (h255 : ∀ y ∈ xs, y = 255) (hx : x < 255) :
    nonce_increment (xs ++ x :: ys) = xs.map (fun _ => 0) ++ (x + 1) :: ys := by
  induction xs with
  | nil => simp [nonce_increment, hx]
  | cons a rest ih =>
    have ha : a = 255 := h255 a (by simp)
    subst ha
    have hrest := ih fun y hy => h255 y (by simp [hy])
    simp only [List.cons_append, nonce_increment, List.map_cons]
    rw [if_neg (by omega)]
    exact congrArg (List.cons 0) hrest

/-- Witness for C9: incrementing 0xFF 0x01 0x07 zeroes the leading 0xFF,
bumps 0x01 to 0x02, and leaves the trailing 0x07 untouched. -/
theorem C9_witness :
    nonce_increment ([255] ++ 1 :: [7]) = ([255] : List Nat).map (fun _ => 0) ++ 2 :: [7] :=
  C9_nonce_increment_frame [255] [7] 1 (by decide) (by decide)

/-- C10: `nonce_increment` and `wipe` are total on finite buffers, preserve
the buffer length (every index accessed is in bounds), and only ever store
values in the byte range 0..255 when the input is in that range. -/
theorem C10_total_in_range (b : List Nat) (h : ∀ x ∈ b, x < 256) :
    (nonce_increment b).length = b.length ∧ (wipe b).length = b.length
    ∧ (∀ x ∈ nonce_increment b, x < 256) ∧ (∀ x ∈ wipe b, x < 256) := by
  refine ⟨nonce_increment_length b, wipe_length b, ?_, ?_⟩
  · induction b with
    | nil => simp [nonce_increment]
    | cons a rest ih =>
      have ha : a < 256 := h a (by simp)
      have hrest : ∀ y ∈ rest, y < 256 := fun y hy => h y (by simp [hy])
      by_cases hlt : a < 255
      · intro y hy
        rcases (by simpa [nonce_increment, hlt] using hy : y = a + 1 ∨ y ∈ rest) with h1 | h1
        · omega
        · exact hrest y h1
      · intro y hy
        rcases (by simpa [nonce_increment, hlt] using hy :
            y = 0 ∨ y ∈ nonce_increment rest) with h1 | h1
        · omega
        · exact ih hrest y h1
  · intro y hy
    have := wipe_mem_zero b y hy
    omega

/-- Witness for C10 at the concrete buffer 0x00 0xFF. -/
theorem C10_witness :
    (nonce_increment [0, 255]).length = ([0, 255] : List Nat).length
    ∧ (wipe [0, 255]).length = ([0, 255] : List Nat).length
    ∧ (∀ x ∈ nonce_increment [0, 255], x < 256) ∧ (∀ x ∈ wipe [0, 255], x < 256) :=
  C10_total_in_range [0, 255] (by decide)

end PyAegis

namespace PyAegis

/-- The arithmetic outcome of `pyaegis.util.new_aligned_struct`: the length of
the over-allocated `unsigned char[]` buffer, the offset computed into it, the
integer address of the returned `ctype *` pointer, and the address of the
returned owner object (the base buffer). -/
structure AllocResult where
  base_len : Int
  offset : Int
  ptr_addr : Int
  owner_addr : Int
deriving DecidableEq

/-- Embedding of `pyaegis.util.new_aligned_struct` with `size = ffi.sizeof(ctype)`
and `addr` the (nonnegative) integer address of the freshly allocated base
buffer.  Python's `&` on arbitrary-precision ints is `Int.land`; the power-of-two
check is `alignment & (alignment - 1)` being nonzero, and the offset into the
over-allocated buffer is `(-addr) & (alignment - 1)`. -/
def new_aligned_struct (size : Nat) (alignment : Int) (addr : Nat) :
    Except String AllocResult :=
  if Int.land alignment (alignment - 1) ≠ 0 then
    Except.error "alignment must be a power of two"
  else
    let offset : Int := Int.land (-(addr : Int)) (alignment - 1)
    Except.ok { base_len := (size : Int) + alignment - 1
                offset := offset
                ptr_addr := (addr : Int) + offset
                owner_addr := (addr : Int) }

theorem ldiff_two_pow_sub_one (n m : Nat) :
    Nat.ldiff (2 ^ n - 1) m = 2 ^ n - 1 - m % 2 ^ n := by
  have hP : 0 < 2 ^ n := Nat.two_pow_pos n
  have ha : m % 2 ^ n < 2 ^ n := Nat.mod_lt _ hP
  apply Nat.eq_of_testBit_eq
  intro i
  rw [Nat.testBit_ldiff, Nat.testBit_two_pow_sub_one]
  have h2 : 2 ^ n - 1 - m % 2 ^ n = 2 ^ n - (m % 2 ^ n + 1) := by omega
  rw [h2, Nat.testBit_two_pow_sub_succ ha, Nat.testBit_mod_two_pow]
  rcases Nat.lt_or_ge i n with h | h
  · simp [h]
  · simp [Nat.not_lt.mpr h, h]

theorem negSucc_emod_two_pow (m n : Nat) :
    Int.negSucc m % (2 : Int) ^ n = ((2 ^ n - 1 - m % 2 ^ n : Nat) : Int) := by
  have hP : 0 < 2 ^ n := Nat.two_pow_pos n
  have ha : m % 2 ^ n < 2 ^ n := Nat.mod_lt _ hP
  have hq : m % 2 ^ n + 2 ^ n * (m / 2 ^ n) = m := Nat.mod_add_div m (2 ^ n)
  have hns : Int.negSucc m = ((2 ^ n - 1 - m % 2 ^ n : Nat) : Int)
      + ((2 : Int) ^ n) * (-((m / 2 ^ n : Nat) : Int) - 1) := by
    have expand : ((2 : Int) ^ n) * (-((m / 2 ^ n : Nat) : Int) - 1)
        = -(((2 ^ n * (m / 2 ^ n) : Nat) : Int)) - ((2 ^ n : Nat) : Int) := by
      push_cast; ring
    rw [expand, Int.negSucc_coe]
    omega
  rw [hns, Int.add_mul_emod_self_left,
    Int.emod_eq_of_lt (by positivity)
      (by exact_mod_cast (by omega : (2 ^ n - 1 - m % 2 ^ n : Nat) < 2 ^ n))]

/-- `Int.land` of two nonnegative integers is the `Nat`-level bitwise and. -/
theorem land_natCast (m n : Nat) :
    Int.land (m : Int) (n : Int) = ((m &&& n : Nat) : Int) := rfl

/-- Python's `(-addr) & (2^n - 1)` is exactly the nonnegative residue of
`-addr` modulo `2^n`. -/
theorem land_neg_mask (addr n : Nat) :
    Int.land (-(addr : Int)) ((2 : Int) ^ n - 1) = (-(addr : Int)) % (2 : Int) ^ n := by
  have hc : ((2 : Int) ^ n - 1) = ((2 ^ n - 1 : Nat) : Int) := by
    have := Nat.one_le_two_pow (n := n)
    push_cast [this]
    ring
  cases addr with
  | zero =>
    rw [hc]
    show Int.land (Int.ofNat 0) (Int.ofNat (2 ^ n - 1)) = (0 : Int) % (2 : Int) ^ n
    rw [Int.zero_emod]
    show Int.ofNat (0 &&& (2 ^ n - 1)) = 0
    have h0 : (0 &&& (2 ^ n - 1)) = 0 := by
      apply Nat.eq_of_testBit_eq
      intro i
      rw [Nat.testBit_land, Nat.zero_testBit, Bool.false_and]
    rw [h0]
    rfl
  | succ a =>
    have hns : -((Nat.succ a : Nat) : Int) = Int.negSucc a := by
      rw [Int.negSucc_coe]
    rw [hns, hc]
    show Int.ofNat (Nat.ldiff (2 ^ n - 1) a) = Int.negSucc a % (2 : Int) ^ n
    rw [ldiff_two_pow_sub_one, negSucc_emod_two_pow]
    rfl

/-- A power of two passes the source's power-of-two test. -/
theorem two_pow_land_pred (k : Nat) : 2 ^ k &&& (2 ^ k - 1) = 0 := by
  apply Nat.eq_of_testBit_eq
  intro i
  rw [Nat.testBit_land, Nat.testBit_two_pow, Nat.testBit_two_pow_sub_one, Nat.zero_testBit]
  by_cases hk : k = i
  · subst hk
    simp
  · simp [hk]

theorem land_two_pow_pred_int (k : Nat) :
    Int.land ((2 : Int) ^ k) ((2 : Int) ^ k - 1) = 0 := by
  have h2 : ((2 : Int) ^ k) = ((2 ^ k : Nat) : Int) := by push_cast; ring
  have hc : ((2 : Int) ^ k - 1) = ((2 ^ k - 1 : Nat) : Int) := by
    have := Nat.one_le_two_pow (n := k)
    push_cast [this]
    ring
  rw [hc, h2, land_natCast, two_pow_land_pred]
  rfl

/-- For alignment `2^k`, `new_aligned_struct` succeeds and its components have
closed arithmetic form. -/
theorem new_aligned_struct_two_pow (size k addr : Nat) :
    new_aligned_struct size ((2 : Int) ^ k) addr =
      Except.ok { base_len := (size : Int) + (2 : Int) ^ k - 1
                  offset := (-(addr : Int)) % (2 : Int) ^ k
                  ptr_addr := (addr : Int) + (-(addr : Int)) % (2 : Int) ^ k
                  owner_addr := (addr : Int) } := by
  rw [new_aligned_struct, if_neg (by simp [land_two_pow_pred_int]), land_neg_mask]

/-- Whether `n` is a natural power of two is exactly what the source's
`n & (n - 1) == 0` test decides, for `n ≥ 1`. -/
theorem land_pred_eq_zero_iff (n : Nat) (hn : 1 ≤ n) :
    n &&& (n - 1) = 0 ↔ ∃ k, n = 2 ^ k := by
  constructor
  · intro h0
    refine ⟨n.log2, ?_⟩
    have h1 : 2 ^ n.log2 ≤ n := Nat.log2_self_le (by omega)
    have h2 : n < 2 ^ (n.log2 + 1) := Nat.lt_log2_self
    rcases Nat.lt_or_ge (2 ^ n.log2) n with hlt | hge
    · exfalso
      have hpos : 0 < 2 ^ n.log2 := Nat.two_pow_pos _
      have hd1 : n / 2 ^ n.log2 = 1 := by
        apply Nat.div_eq_of_lt_le (by omega)
        have : 2 ^ (n.log2 + 1) = 2 ^ n.log2 * 2 := by rw [pow_succ]
        omega
      have hd2 : (n - 1) / 2 ^ n.log2 = 1 := by
        apply Nat.div_eq_of_lt_le (by omega)
        have : 2 ^ (n.log2 + 1) = 2 ^ n.log2 * 2 := by rw [pow_succ]
        omega
      have hb1 : n.testBit n.log2 = true := by
        rw [Nat.testBit_to_div_mod, hd1]
        decide
      have hb2 : (n - 1).testBit n.log2 = true := by
        rw [Nat.testBit_to_div_mod, hd2]
        decide
      have : (n &&& (n - 1)).testBit n.log2 = true := by
        rw [Nat.testBit_land, hb1, hb2]
        rfl
      rw [h0, Nat.zero_testBit] at this
      exact Bool.false_ne_true this
    · omega
  · rintro ⟨k, rfl⟩
    exact two_pow_land_pred k

end PyAegis

namespace PyAegis

/-- C3: for a power-of-two alignment, a successful `new_aligned_struct`
returns a pointer whose integer address is divisible by the alignment. -/
theorem C3_new_aligned_struct_aligned (size addr k : Nat) (r : AllocResult)
    (h : new_aligned_struct size ((2 : Int) ^ k) addr = Except.ok r) :
    r.ptr_addr % (2 : Int) ^ k = 0 := by
  rw [new_aligned_struct_two_pow] at h
  cases h
  show ((addr : Int) + (-(addr : Int)) % (2 : Int) ^ k) % (2 : Int) ^ k = 0
  rw [Int.add_emod, Int.emod_emod_of_dvd _ dvd_rfl, ← Int.add_emod]
  simp

/-- Witness for C3 with `ctype` of size 16, alignment 16 and base address 1003. -/
theorem C3_witness :
    (AllocResult.mk 31 5 1008 1003).ptr_addr % (2 : Int) ^ 4 = 0 :=
  C3_new_aligned_struct_aligned 16 1003 4 (AllocResult.mk 31 5 1008 1003)
    (by rw [new_aligned_struct_two_pow]; exact congrArg Except.ok (by decide))

/-- C5: for a power-of-two alignment `2^k`, `new_aligned_struct` over-allocates
exactly `size + 2^k - 1` bytes, the computed offset satisfies
`0 ≤ offset < 2^k`, the aligned interior view `[offset, offset + size)` lies
inside the over-allocated region, and the returned owner is the original
over-allocated base region (at the base address), not the interior view. -/
theorem C5_new_aligned_struct_overalloc (size addr k : Nat) (r : AllocResult)
    (h : new_aligned_struct size ((2 : Int) ^ k) addr = Except.ok r) :
    r.base_len = (size : Int) + (2 : Int) ^ k - 1
    ∧ 0 ≤ r.offset ∧ r.offset < (2 : Int) ^ k
    ∧ r.offset + size ≤ r.base_len
    ∧ r.owner_addr = (addr : Int) := by
  rw [new_aligned_struct_two_pow] at h
  cases h
  have hpos : (0 : Int) < (2 : Int) ^ k := by positivity
  have h1 : 0 ≤ (-(addr : Int)) % (2 : Int) ^ k := Int.emod_nonneg _ (by omega)
  have h2 : (-(addr : Int)) % (2 : Int) ^ k < (2 : Int) ^ k := Int.emod_lt_of_pos _ hpos
  refine ⟨rfl, h1, h2, ?_, rfl⟩
  show (-(addr : Int)) % (2 : Int) ^ k + size ≤ (size : Int) + (2 : Int) ^ k - 1
  omega

/-- Witness for C5 with `ctype` of size 24, alignment 8 and base address 1001. -/
theorem C5_witness :
    (AllocResult.mk 31 7 1008 1001).base_len = ((24 : Nat) : Int) + (2 : Int) ^ 3 - 1
    ∧ 0 ≤ (AllocResult.mk 31 7 1008 1001).offset
    ∧ (AllocResult.mk 31 7 1008 1001).offset < (2 : Int) ^ 3
    ∧ (AllocResult.mk 31 7 1008 1001).offset + (24 : Nat) ≤ (AllocResult.mk 31 7 1008 1001).base_len
    ∧ (AllocResult.mk 31 7 1008 1001).owner_addr = ((1001 : Nat) : Int) :=
  C5_new_aligned_struct_overalloc 24 1001 3 (AllocResult.mk 31 7 1008 1001)
    (by rw [new_aligned_struct_two_pow]; exact congrArg Except.ok (by decide))

/-- C4 counterexample: alignment 0 is not a power of two, yet the source's
check `alignment & (alignment - 1)` is `0 & -1 = 0`, so no ValueError is
raised: `new_aligned_struct` succeeds at alignment 0. -/
theorem C4_counterexample :
    (new_aligned_struct 16 0 1000).isOk = true
    ∧ ¬ ∃ k : Nat, (0 : Int) = (2 : Int) ^ k := by
  constructor
  · have hland : Int.land (0 : Int) (-1 : Int) = 0 := by
      show Int.ofNat (Nat.ldiff 0 0) = 0
      have h := ldiff_two_pow_sub_one 0 0
      norm_num at h
      rw [h]
      rfl
    rw [new_aligned_struct, if_neg (by simp [hland])]
    rfl
  · rintro ⟨k, hk⟩
    have : (0 : Int) < 2 ^ k := by positivity
    omega

/-- C4 (amended): for every alignment ≥ 1, `new_aligned_struct` raises
ValueError if and only if the alignment is not a power of two; the value 0,
however, slips through the `alignment & (alignment - 1)` check unrejected. -/
theorem C4_pow2_check (a : Int) (ha : 1 ≤ a) (size addr : Nat) :
    (new_aligned_struct size a addr).isOk = false ↔ ¬ ∃ k : Nat, a = (2 : Int) ^ k := by
  obtain ⟨n, rfl⟩ : ∃ n : Nat, a = (n : Int) :=
    ⟨a.toNat, (Int.toNat_of_nonneg (by omega)).symm⟩
  have hn : 1 ≤ n := by exact_mod_cast ha
  have hc : ((n : Int) - 1) = ((n - 1 : Nat) : Int) := by omega
  have hl : Int.land (n : Int) ((n : Int) - 1) = ((n &&& (n - 1) : Nat) : Int) := by
    rw [hc, land_natCast]
  have hiff : (∃ k : Nat, (n : Int) = (2 : Int) ^ k) ↔ ∃ k : Nat, n = 2 ^ k := by
    constructor
    · rintro ⟨k, hk⟩
      exact ⟨k, by exact_mod_cast hk⟩
    · rintro ⟨k, hk⟩
      exact ⟨k, by exact_mod_cast hk⟩
  have hstep : (new_aligned_struct size (n : Int) addr).isOk = false
      ↔ ¬ ((n &&& (n - 1)) = 0) := by
    rw [new_aligned_struct, hl]
    rcases Nat.eq_zero_or_pos (n &&& (n - 1)) with h0 | hpos
    · rw [h0]
      simp [Except.isOk, Except.toBool]
    · have hnz : ((n &&& (n - 1) : Nat) : Int) ≠ 0 := by
        exact_mod_cast Nat.pos_iff_ne_zero.mp hpos
      rw [if_pos hnz]
      simpa [Except.isOk, Except.toBool] using Nat.pos_iff_ne_zero.mp hpos
  rw [hstep, hiff, ← land_pred_eq_zero_iff n hn]

/-- Witness for C4's amended statement at alignment 3 (not a power of two). -/
theorem C4_witness :
    (new_aligned_struct 16 3 1000).isOk = false ↔ ¬ ∃ k : Nat, (3 : Int) = (2 : Int) ^ k :=
  C4_pow2_check 3 (by decide) 16 1000

end PyAegis

namespace PyAegis

/-- Embedding of `alloc_aligned` from `_loader.py`: `rc` is the return status
of the single `posix_memalign` call and `memptr` the address it stored (0 for
NULL).  A `MemoryError` is raised when `rc` is nonzero or the pointer is NULL;
otherwise the produced pointer is returned.  There is no retry: the function
performs exactly one allocation attempt. -/
def alloc_aligned (rc : Int) (memptr : Nat) : Except String Nat :=
  if rc ≠ 0 ∨ memptr = 0 then
    Except.error "posix_memalign failed"
  else
    Except.ok memptr

/-- Embedding of the `try: lib.aegis_init() except Exception: pass` block of
`_loader.py`: whatever `aegis_init` does, the block completes normally. -/
def guarded_aegis_init (initr : Except String Unit) : Except String Unit :=
  match initr with
  | Except.ok _ => Except.ok ()
  | Except.error _ => Except.ok ()

/-- Embedding of the module-level statements of `_loader.py`: load libaegis,
load libc, then call `aegis_init` exactly once inside the guarded block.
Module import fails only when a library fails to load. -/
def module_import (libload libcload initr : Except String Unit) : Except String Unit :=
  match libload with
  | Except.error e => Except.error e
  | Except.ok _ =>
    match libcload with
    | Except.error e => Except.error e
    | Except.ok _ => guarded_aegis_init initr

/-- Embedding of `_platform_lib_name` from `aegis/_loader.py`. -/
def _platform_lib_name (platform osName : String) : String :=
  if platform.startsWith "linux" then "libaegis.so"
  else if platform = "darwin" then "libaegis.dylib"
  else if osName = "nt" then "aegis.dll"
  else "libaegis.so"

/-- The local build locations tried by `_candidate_paths`, in source order. -/
def local_build_rels : List String :=
  ["build-shared-clang/libaegis.so", "build-shared/libaegis.so",
   "build/libaegis.so", "zig-out/lib/libaegis.so"]

/-- Embedding of `_candidate_paths` from `aegis/_loader.py`: the AEGIS_LIB_PATH
value when set (and nonempty, per Python truthiness), then AEGIS_LIB_DIR joined
with the platform library name when set, then each existing local build path in
source order, then the bare platform library name. -/
def _candidate_paths (libPath libDir : Option String) (repoRoot : String)
    (pathExists : String → Bool) (platform osName : String) : List String :=
  (match libPath with
   | some p => if p ≠ "" then [p] else []
   | none => [])
  ++ (match libDir with
      | some d => if d ≠ "" then [d ++ "/" ++ _platform_lib_name platform osName] else []
      | none => [])
  ++ (local_build_rels.filterMap fun rel =>
       if pathExists (repoRoot ++ "/" ++ rel) then some (repoRoot ++ "/" ++ rel) else none)
  ++ [_platform_lib_name platform osName]

/-- Embedding of `_load_libaegis` from `aegis/_loader.py`: try each candidate
with `ffi.dlopen` (modelled by the `loads` oracle), return the first success,
raise OSError only after every candidate has failed. -/
def _load_libaegis (loads : String → Bool) : List String → Except String String
  | [] => Except.error "Could not load libaegis"
  | c :: rest => if loads c then Except.ok c else _load_libaegis loads rest

theorem load_libaegis_first_success (loads : String → Bool) (xs : List String)
    (c : String) (ys : List String) (hxs : ∀ x ∈ xs, loads x = false)
    (hc : loads c = true) :
    _load_libaegis loads (xs ++ c :: ys) = Except.ok c := by
  induction xs with
  | nil => simp [_load_libaegis, hc]
  | cons a rest ih =>
    have ha : loads a = false := hxs a (by simp)
    simp only [List.cons_append, _load_libaegis, ha, Bool.false_eq_true, if_false]
    exact ih fun x hx => hxs x (by simp [hx])

theorem load_libaegis_error_iff (loads : String → Bool) (cands : List String) :
    (_load_libaegis loads cands).isOk = false ↔ ∀ c ∈ cands, loads c = false := by
  induction cands with
  | nil => simp [_load_libaegis, Except.isOk, Except.toBool]
  | cons a rest ih =>
    by_cases ha : loads a = true
    · simp [_load_libaegis, ha, Except.isOk, Except.toBool]
    · have ha' : loads a = false := by
        cases h : loads a
        · rfl
        · exact absurd h ha
      simp [_load_libaegis, ha', ih]

theorem candidate_paths_getLast (libPath libDir : Option String) (repoRoot : String)
    (pathExists : String → Bool) (platform osName : String) :
    (_candidate_paths libPath libDir repoRoot pathExists platform osName).getLast?
      = some (_platform_lib_name platform osName) := by
  simp only [_candidate_paths]
  exact List.getLast?_concat _

end PyAegis

namespace PyAegis

/-- C6: `alloc_aligned` raises MemoryError exactly when the single
`posix_memalign` call returns a nonzero status or stores a NULL pointer;
on success it returns the pointer `posix_memalign` produced. -/
theorem C6_alloc_aligned_spec (rc : Int) (memptr : Nat) :
    ((alloc_aligned rc memptr).isOk = false ↔ (rc ≠ 0 ∨ memptr = 0))
    ∧ (rc = 0 → memptr ≠ 0 → alloc_aligned rc memptr = Except.ok memptr) := by
  constructor
  · by_cases h : rc ≠ 0 ∨ memptr = 0
    · simp [alloc_aligned, h, Except.isOk, Except.toBool]
    · simp [alloc_aligned, h, Except.isOk, Except.toBool]
  · intro h1 h2
    rw [alloc_aligned, if_neg (by simp [h1, h2])]

/-- Witness for C6: a successful `posix_memalign` with status 0 and pointer
0x2000 makes `alloc_aligned` return that pointer. -/
theorem C6_witness : alloc_aligned 0 8192 = Except.ok 8192 :=
  (C6_alloc_aligned_spec 0 8192).2 rfl (by decide)

/-- C7: at module import, `aegis_init` is called once inside a
`try/except pass` block, so any exception it raises is swallowed: module
importing succeeds whatever the outcome of `aegis_init`, and the guard block
always completes normally. -/
theorem C7_aegis_init_nonfatal (initr : Except String Unit) :
    module_import (Except.ok ()) (Except.ok ()) initr = Except.ok ()
    ∧ guarded_aegis_init initr = Except.ok () := by
  cases initr with
  | ok u => exact ⟨rfl, rfl⟩
  | error e => exact ⟨rfl, rfl⟩

/-- C8: `_load_libaegis` tries the candidates of `_candidate_paths` in order:
the AEGIS_LIB_PATH value first when the variable is set (and nonempty), the
bare platform library name last, with each existing local build path included;
it returns the first candidate that loads and fails only when every candidate
has failed to load. -/
theorem C8_loader_order (repoRoot : String) (pathExists : String → Bool)
    (platform osName : String) (p : String) (hp : p ≠ "") :
    (∀ libDir, (_candidate_paths (some p) libDir repoRoot pathExists platform osName).head?
        = some p)
    ∧ (∀ libPath libDir,
        (_candidate_paths libPath libDir repoRoot pathExists platform osName).getLast?
          = some (_platform_lib_name platform osName))
    ∧ (∀ rel ∈ local_build_rels, pathExists (repoRoot ++ "/" ++ rel) = true →
        (repoRoot ++ "/" ++ rel) ∈
          _candidate_paths none none repoRoot pathExists platform osName)
    ∧ (∀ (loads : String → Bool) (xs : List String) (c : String) (ys : List String),
        (∀ x ∈ xs, loads x = false) → loads c = true →
        _load_libaegis loads (xs ++ c :: ys) = Except.ok c)
    ∧ (∀ (loads : String → Bool) (cands : List String),
        (_load_libaegis loads cands).isOk = false ↔ ∀ c ∈ cands, loads c = false) := by
  refine ⟨?_, ?_, ?_, load_libaegis_first_success, load_libaegis_error_iff⟩
  · intro libDir
    simp [_candidate_paths, hp]
  · intro libPath libDir
    exact candidate_paths_getLast libPath libDir repoRoot pathExists platform osName
  · intro rel hrel hex
    have hmem : (repoRoot ++ "/" ++ rel) ∈ local_build_rels.filterMap
        (fun r => if pathExists (repoRoot ++ "/" ++ r)
          then some (repoRoot ++ "/" ++ r) else none) := by
      rw [List.mem_filterMap]
      exact ⟨rel, hrel, by rw [if_pos hex]⟩
    simp only [_candidate_paths, List.mem_append]
    exact Or.inl (Or.inr hmem)

/-- Witness for C8: with AEGIS_LIB_PATH set to "/opt/libaegis.so" it is the
first candidate tried. -/
theorem C8_witness :
    (_candidate_paths (some "/opt/libaegis.so") none "/repo" (fun _ => false)
        "linux" "posix").head? = some "/opt/libaegis.so" :=
  (C8_loader_order "/repo" (fun _ => false) "linux" "posix" "/opt/libaegis.so"
    (by decide)).1 none

end PyAegis
